import Mathlib

/-!
Verification development for the pkgsite fetch-and-render core.

The definitions below are a shallow embedding of the repository source:

* `internal/godoc` package rendering (constants, `Package.docPackage`,
  `Package.Render`): the documentation extractor and renderer driver.
* `internal/frontend/readme.go`: the README heading outline.
* the archive fetcher helpers (`hasFilename`, `matchingFiles`) and the
  fetch/persistence pipeline, whose implementations live outside the
  examined sources and are therefore modelled from the specification.

External collaborators of the embedded code (the `doc` library's
`NewFromFiles` and `Synopsis`, and `dochtml.Render`) are passed in as
explicit data or function arguments.
-/

set_option maxRecDepth 4096

namespace Pkgsite

/-! ## Constants from internal/godoc (src/unnamed/part_000) -/

def megabyte : Nat := 1000 * 1000

def maxImportsPerPackage : Nat := 1000

def docTooLargeReplacement : String := "<p>Documentation is too large to display.</p>"

/-- Module path under which the standard library is stored (stdlib.ModulePath). -/
def stdlibModulePath : String := "std"

/-- Escaping applied by the html template engine to an interpolated value. -/
def htmlEscapeChar (c : Char) : String :=
  if c = '&' then "&amp;"
  else if c = '<' then "&lt;"
  else if c = '>' then "&gt;"
  else if c = '"' then "&#34;"
  else if c = Char.ofNat 39 then "&#39;"
  else String.singleton c

def htmlEscape (s : String) : String := String.join (s.data.map htmlEscapeChar)

/-- Result of executing noDocTemplate on an argument: the template text is
the fixed fragment with the argument interpolated (and html-escaped). -/
def noDocHTML (arg : String) : String :=
  "<p>No documentation for GOOS/GOARCH " ++ htmlEscape arg ++ "</p>"

/-! ## The documentation model (go/doc package data consumed by godoc) -/

structure DocValue where
  decl : String
deriving DecidableEq, Repr

structure DocFunc where
  Name : String
deriving DecidableEq, Repr

structure DocType where
  Name : String
  Consts : List DocValue
  Vars : List DocValue
  Funcs : List DocFunc
deriving DecidableEq, Repr

structure DocPackage where
  Doc : String
  Imports : List String
  Consts : List DocValue
  Vars : List DocValue
  Funcs : List DocFunc
  Types : List DocType
deriving DecidableEq, Repr

structure ModuleInfo where
  ModulePath : String
  ResolvedVersion : String
deriving DecidableEq, Repr

/-- A godoc Package. The external library call doc.NewFromFiles over the
package files is abstracted by its outcome, carried in docModel. -/
structure Package where
  GOOS : String
  GOARCH : String
  docModel : Except String DocPackage
deriving Repr

def pathJoin (a b : String) : String :=
  if a = "" then b else if b = "" then a else a ++ "/" ++ b

/-! ## Package.docPackage (src/unnamed/part_000 lines 77-128) -/

inductive DocErr where
  | newFromFiles (msg : String)
  | tooManyImports (found limit : Nat) (importPath : String)
deriving DecidableEq, Repr

/-- Ordering of doc functions by name, used by the builtin special case. -/
def funcLe (f g : DocFunc) : Prop := f.Name ≤ g.Name

instance : DecidableRel funcLe :=
  fun f g => inferInstanceAs (Decidable (f.Name ≤ g.Name))

instance : IsTotal DocFunc funcLe := ⟨fun a b => le_total a.Name b.Name⟩

instance : IsTrans DocFunc funcLe := ⟨fun _ _ _ hab hbc => le_trans hab hbc⟩

/-- The noTypeAssociation transform for the stdlib builtin package: move every
type's consts, vars and funcs to the package level (in type order), leave the
per-type lists empty, then sort the package funcs by name. -/
def flattenTypes (d : DocPackage) : DocPackage :=
  { d with
    Consts := d.Consts ++ (d.Types.map DocType.Consts).flatten
    Vars := d.Vars ++ (d.Types.map DocType.Vars).flatten
    Funcs := List.insertionSort funcLe (d.Funcs ++ (d.Types.map DocType.Funcs).flatten)
    Types := d.Types.map fun t => { t with Consts := [], Vars := [], Funcs := [] } }

/-- Embedding of Package.docPackage: compute the import path, consult the
doc.NewFromFiles outcome, apply the builtin special case, and enforce
the ceiling on the import count. -/
def Package.docPackage (p : Package) (innerPath : String) (modInfo : ModuleInfo) :
    Except DocErr DocPackage :=
  let importPath :=
    if modInfo.ModulePath = stdlibModulePath then innerPath
    else pathJoin modInfo.ModulePath innerPath
  match p.docModel with
  | .error m => .error (.newFromFiles m)
  | .ok d0 =>
    let d :=
      if modInfo.ModulePath = stdlibModulePath ∧ importPath = "builtin" then flattenTypes d0
      else d0
    if maxImportsPerPackage < d.Imports.length then
      .error (.tooManyImports d.Imports.length maxImportsPerPackage importPath)
    else
      .ok d

def isOkE (e : Except DocErr DocPackage) : Bool :=
  match e with
  | .ok _ => true
  | .error _ => false

/-! ## Package.Render (src/unnamed/part_000 lines 44-75) -/

/-- Outcome of the external dochtml.Render call. -/
inductive DochtmlOutcome where
  | ok (html : String)
  | tooLarge
  | fail (msg : String)
deriving DecidableEq, Repr

inductive RenderErr where
  | noDoc
  | doc (e : DocErr)
  | tooLarge
  | internal (msg : String)
deriving DecidableEq, Repr

/-- The four results of Package.Render; err mirrors the returned error value
(none for a nil error). -/
structure RenderResult where
  synopsis : String
  imports : List String
  html : String
  err : Option RenderErr
deriving DecidableEq, Repr

/-- Embedding of Package.Render. The external collaborators doc.Synopsis and
dochtml.Render are passed as the function arguments docSynopsis and
dochtmlRender. On the goos/goarch mismatch path the no-doc fragment is
returned with a non-nil error; when dochtml.Render reports ErrTooLarge the
html is replaced by docTooLargeReplacement and the error is returned as-is. -/
def Package.Render (p : Package) (docSynopsis : String → String)
    (dochtmlRender : DocPackage → DochtmlOutcome)
    (innerPath : String) (modInfo : ModuleInfo) (goos goarch : String) : RenderResult :=
  if ((goos != "") && (goos != p.GOOS)) || ((goarch != "") && (goarch != p.GOARCH)) then
    { synopsis := "No documentation.", imports := [],
      html := noDocHTML (goos ++ "/" ++ goarch), err := some RenderErr.noDoc }
  else
    match p.docPackage innerPath modInfo with
    | .error e => { synopsis := "", imports := [], html := "", err := some (RenderErr.doc e) }
    | .ok d =>
      match dochtmlRender d with
      | .tooLarge =>
        { synopsis := docSynopsis d.Doc, imports := d.Imports,
          html := docTooLargeReplacement, err := some RenderErr.tooLarge }
      | .fail m => { synopsis := "", imports := [], html := "", err := some (RenderErr.internal m) }
      | .ok h =>
        { synopsis := docSynopsis d.Doc, imports := d.Imports, html := h, err := none }

/-! ## Concrete test data -/

def testDoc : DocPackage :=
  { Doc := "Package foo does things.", Imports := ["fmt"],
    Consts := [], Vars := [], Funcs := [], Types := [] }

def testModInfo : ModuleInfo :=
  { ModulePath := "github.com/my/module", ResolvedVersion := "v1.0.0" }

def testPkg : Package :=
  { GOOS := "linux", GOARCH := "amd64", docModel := Except.ok testDoc }

/-- C1: for every package whose documentation rendering reports a
size-exceeded condition (the returned error is ErrTooLarge), the HTML that
Render returns is exactly the fixed placeholder fragment. -/
theorem render_tooLarge_placeholder (p : Package) (syn : String → String)
    (dr : DocPackage → DochtmlOutcome) (innerPath : String) (modInfo : ModuleInfo)
    (goos goarch : String)
    (h : (p.Render syn dr innerPath modInfo goos goarch).err = some RenderErr.tooLarge) :
    (p.Render syn dr innerPath modInfo goos goarch).html = docTooLargeReplacement := by
  by_cases hcond :
      (((goos != "") && (goos != p.GOOS)) || ((goarch != "") && (goarch != p.GOARCH))) = true
  · simp [Package.Render, hcond] at h
  · rcases hd : p.docPackage innerPath modInfo with e | d
    · simp [Package.Render, hcond, hd] at h
    · rcases hr : dr d with hh | _ | m
      · simp [Package.Render, hcond, hd, hr] at h
      · simp [Package.Render, hcond, hd, hr]
      · simp [Package.Render, hcond, hd, hr] at h

/-- Witness for C1 at a concrete package whose renderer reports too-large. -/
theorem render_tooLarge_placeholder_witness :
    (testPkg.Render id (fun _ => DochtmlOutcome.tooLarge) "foo" testModInfo "" "").html =
      docTooLargeReplacement :=
  render_tooLarge_placeholder testPkg id (fun _ => DochtmlOutcome.tooLarge) "foo" testModInfo
    "" "" (by decide)

/-- C2 counterexample: at a concrete package whose renderer reports the
size-exceeded condition, Render does return the placeholder HTML, but the
returned error is not nil, refuting the claim that the error is nil. -/
theorem render_tooLarge_err_counterexample :
    (testPkg.Render id (fun _ => DochtmlOutcome.tooLarge) "foo" testModInfo "" "").html =
        docTooLargeReplacement
      ∧ (testPkg.Render id (fun _ => DochtmlOutcome.tooLarge) "foo" testModInfo "" "").err ≠
          none := by
  decide

/-- C2 (amended): whenever rendered documentation exceeds the byte ceiling,
Render returns the placeholder HTML together with the synopsis and imports,
and the non-nil ErrTooLarge error (the error is passed through to the caller,
not discarded). -/
theorem render_tooLarge_full (p : Package) (syn : String → String)
    (dr : DocPackage → DochtmlOutcome) (innerPath : String) (modInfo : ModuleInfo)
    (goos goarch : String) (d : DocPackage)
    (hgate : (((goos != "") && (goos != p.GOOS)) || ((goarch != "") && (goarch != p.GOARCH))) =
      false)
    (hdoc : p.docPackage innerPath modInfo = Except.ok d)
    (hr : dr d = DochtmlOutcome.tooLarge) :
    p.Render syn dr innerPath modInfo goos goarch =
      { synopsis := syn d.Doc, imports := d.Imports,
        html := docTooLargeReplacement, err := some RenderErr.tooLarge } := by
  simp [Package.Render, hgate, hdoc, hr]

/-- Witness for the amended C2 at a concrete too-large package. -/
theorem render_tooLarge_full_witness :
    testPkg.Render id (fun _ => DochtmlOutcome.tooLarge) "foo" testModInfo "" "" =
      { synopsis := testDoc.Doc, imports := testDoc.Imports,
        html := docTooLargeReplacement, err := some RenderErr.tooLarge } :=
  render_tooLarge_full testPkg id (fun _ => DochtmlOutcome.tooLarge) "foo" testModInfo
    "" "" testDoc (by decide) rfl rfl

/-- C10: on a call with a non-empty goos different from the package GOOS, or
a non-empty goarch different from the package GOARCH, Render returns the
synopsis No documentation., an empty import list, the fixed no-doc fragment
for goos/goarch, and a non-nil error; the doc model is never consulted (any
package with the same GOOS and GOARCH fields yields the identical result). -/
theorem render_mismatch (p : Package) (syn : String → String)
    (dr : DocPackage → DochtmlOutcome) (innerPath : String) (modInfo : ModuleInfo)
    (goos goarch : String)
    (h : (((goos != "") && (goos != p.GOOS)) || ((goarch != "") && (goarch != p.GOARCH))) =
      true) :
    p.Render syn dr innerPath modInfo goos goarch =
        { synopsis := "No documentation.", imports := [],
          html := noDocHTML (goos ++ "/" ++ goarch), err := some RenderErr.noDoc }
      ∧ (p.Render syn dr innerPath modInfo goos goarch).err ≠ none
      ∧ ∀ q : Package, q.GOOS = p.GOOS → q.GOARCH = p.GOARCH →
          q.Render syn dr innerPath modInfo goos goarch =
            p.Render syn dr innerPath modInfo goos goarch := by
  refine ⟨?_, ?_, ?_⟩
  · simp [Package.Render, h]
  · simp [Package.Render, h]
  · intro q hos harch
    have hq : (((goos != "") && (goos != q.GOOS)) || ((goarch != "") && (goarch != q.GOARCH))) =
        true := by
      rw [hos, harch]; exact h
    simp [Package.Render, h, hq]

/-- Witness for C10 at a concrete platform mismatch. -/
theorem render_mismatch_witness :
    testPkg.Render id (fun _ => DochtmlOutcome.tooLarge) "foo" testModInfo "windows" "amd64" =
      { synopsis := "No documentation.", imports := [],
        html := noDocHTML ("windows" ++ "/" ++ "amd64"), err := some RenderErr.noDoc } :=
  (render_mismatch testPkg id (fun _ => DochtmlOutcome.tooLarge) "foo" testModInfo
    "windows" "amd64" (by decide)).1

theorem flattenTypes_Imports (d : DocPackage) : (flattenTypes d).Imports = d.Imports := rfl

/-- C6: docPackage reports a too-many-imports error exactly when the count
of package imports exceeds maxImportsPerPackage; with at most 1000 imports the
extraction succeeds, and the error names the actual count and the limit. -/
theorem docPackage_import_limit (p : Package) (innerPath : String) (modInfo : ModuleInfo)
    (d : DocPackage) (hd : p.docModel = Except.ok d) :
    (isOkE (p.docPackage innerPath modInfo) = true ↔ d.Imports.length ≤ maxImportsPerPackage)
    ∧ (∀ found limit ip,
        p.docPackage innerPath modInfo = Except.error (DocErr.tooManyImports found limit ip) →
          found = d.Imports.length ∧ limit = 1000 ∧ 1000 < found) := by
  obtain ⟨d2, ip, hImp, heq⟩ : ∃ d2 ip, d2.Imports = d.Imports ∧
      p.docPackage innerPath modInfo =
        (if maxImportsPerPackage < d2.Imports.length then
          Except.error (DocErr.tooManyImports d2.Imports.length maxImportsPerPackage ip)
        else Except.ok d2) := by
    unfold Package.docPackage
    rw [hd]
    dsimp only
    refine ⟨_, _, ?_, rfl⟩
    split <;> split <;> rfl
  rw [hImp] at heq
  constructor
  · rw [heq]
    by_cases hl : maxImportsPerPackage < d.Imports.length
    · rw [if_pos hl]
      simp only [isOkE]
      constructor
      · intro hfalse
        exact absurd hfalse (by decide)
      · intro hle
        exact absurd hl (not_lt.mpr hle)
    · rw [if_neg hl]
      simp only [isOkE]
      exact ⟨fun _ => not_lt.mp hl, fun _ => trivial⟩
  · intro found limit ip2 h2
    rw [heq] at h2
    by_cases hl : maxImportsPerPackage < d.Imports.length
    · rw [if_pos hl] at h2
      injection h2 with h3
      obtain ⟨hf, hlim2, _⟩ := DocErr.tooManyImports.inj h3
      refine ⟨hf.symm, hlim2.symm, ?_⟩
      rw [← hf]
      exact hl
    · rw [if_neg hl] at h2
      cases h2

/-- Witness for C6: a package with one import extracts successfully. -/
theorem docPackage_import_limit_witness :
    isOkE (testPkg.docPackage "foo" testModInfo) = true :=
  (docPackage_import_limit testPkg "foo" testModInfo testDoc rfl).1.mpr (by decide)

def builtinDoc : DocPackage :=
  { Doc := "Package builtin provides documentation for predeclared identifiers.",
    Imports := [],
    Consts := [⟨"true false"⟩],
    Vars := [],
    Funcs := [⟨"make"⟩, ⟨"append"⟩],
    Types := [{ Name := "error", Consts := [⟨"iota"⟩], Vars := [⟨"nil"⟩], Funcs := [⟨"cap"⟩] }] }

def builtinPkg : Package :=
  { GOOS := "linux", GOARCH := "amd64", docModel := Except.ok builtinDoc }

def stdModInfo : ModuleInfo := { ModulePath := "std", ResolvedVersion := "v1.0.0" }

/-- C7: when extracting the stdlib builtin package, every type's Consts, Vars
and Funcs are moved to the package level (the per-type lists end up empty) and
the package-level Funcs are then sorted ascending by name; for any other
package the doc model is passed through unchanged. -/
theorem docPackage_builtin_special (p : Package) (modInfo : ModuleInfo) (d : DocPackage)
    (hd : p.docModel = Except.ok d)
    (hlim : d.Imports.length ≤ maxImportsPerPackage) :
    (modInfo.ModulePath = stdlibModulePath →
      ∃ d2, p.docPackage "builtin" modInfo = Except.ok d2
        ∧ d2.Consts = d.Consts ++ (d.Types.map DocType.Consts).flatten
        ∧ d2.Vars = d.Vars ++ (d.Types.map DocType.Vars).flatten
        ∧ (∀ t ∈ d2.Types, t.Consts = [] ∧ t.Vars = [] ∧ t.Funcs = [])
        ∧ d2.Funcs.Perm (d.Funcs ++ (d.Types.map DocType.Funcs).flatten)
        ∧ List.Sorted funcLe d2.Funcs)
    ∧ (∀ innerPath, ¬(modInfo.ModulePath = stdlibModulePath ∧ innerPath = "builtin") →
        p.docPackage innerPath modInfo = Except.ok d) := by
  constructor
  · intro hstd
    refine ⟨flattenTypes d, ?_, rfl, rfl, ?_, ?_, ?_⟩
    · unfold Package.docPackage
      rw [hd]
      dsimp only
      rw [if_pos hstd]
      have hcond : modInfo.ModulePath = stdlibModulePath ∧ ("builtin" : String) = "builtin" :=
        ⟨hstd, rfl⟩
      rw [if_pos hcond]
      have hno : ¬ maxImportsPerPackage < (flattenTypes d).Imports.length := by
        rw [flattenTypes_Imports]
        exact not_lt.mpr hlim
      rw [if_neg hno]
    · intro t ht
      simp only [flattenTypes, List.mem_map] at ht
      obtain ⟨t0, _, rfl⟩ := ht
      exact ⟨rfl, rfl, rfl⟩
    · exact List.perm_insertionSort funcLe _
    · exact List.sorted_insertionSort funcLe _
  · intro innerPath hnb
    unfold Package.docPackage
    rw [hd]
    dsimp only
    by_cases hstd : modInfo.ModulePath = stdlibModulePath
    · rw [if_pos hstd]
      have hcond : ¬(modInfo.ModulePath = stdlibModulePath ∧ innerPath = "builtin") := hnb
      rw [if_neg hcond]
      have hno : ¬ maxImportsPerPackage < d.Imports.length := not_lt.mpr hlim
      rw [if_neg hno]
    · rw [if_neg hstd]
      have hcond : ¬(modInfo.ModulePath = stdlibModulePath ∧
          pathJoin modInfo.ModulePath innerPath = "builtin") := fun hc => hstd hc.1
      rw [if_neg hcond]
      have hno : ¬ maxImportsPerPackage < d.Imports.length := not_lt.mpr hlim
      rw [if_neg hno]

/-- Witness for C7 at a concrete builtin doc model. -/
theorem docPackage_builtin_special_witness :
    ∃ d2, builtinPkg.docPackage "builtin" stdModInfo = Except.ok d2
      ∧ d2.Consts = builtinDoc.Consts ++ (builtinDoc.Types.map DocType.Consts).flatten
      ∧ d2.Vars = builtinDoc.Vars ++ (builtinDoc.Types.map DocType.Vars).flatten
      ∧ (∀ t ∈ d2.Types, t.Consts = [] ∧ t.Vars = [] ∧ t.Funcs = [])
      ∧ d2.Funcs.Perm (builtinDoc.Funcs ++ (builtinDoc.Types.map DocType.Funcs).flatten)
      ∧ List.Sorted funcLe d2.Funcs :=
  (docPackage_builtin_special builtinPkg stdModInfo builtinDoc rfl (by decide)).1 rfl

/-! ## internal/frontend/readme.go: the README heading outline -/

structure Heading where
  Level : Nat
  Text : String
  ID : String
deriving DecidableEq, Repr

/-- The math.MaxInt8 sentinel used to initialise the level trackers. -/
def maxInt8 : Nat := 127

/-- One step of the two-smallest-level tracking in readmeOutline: the pair
holds the smallest and second-smallest distinct levels seen so far. -/
def outlineStep (st : Nat × Nat) (lev : Nat) : Nat × Nat :=
  if lev < st.1 then (lev, st.1)
  else if lev < st.2 ∧ lev ≠ st.1 then (st.1, lev)
  else (st.1, st.2)

def outlineFold (ls : List Nat) : Nat × Nat :=
  ls.foldl outlineStep (maxInt8, maxInt8)

/-- Embedding of readmeOutline. The AST walk yields the document-order list
of headings (descent below a visited heading is skipped); the walk collects
the headings and tracks the two smallest levels, and the outline keeps the
headings whose level is at most the second tracker. -/
def readmeOutline (hs : List Heading) : List Heading :=
  let p := hs.foldl (fun st h => outlineStep st h.Level) (maxInt8, maxInt8)
  hs.filter (fun h => h.Level ≤ p.2)

/-- Running minimum, the specification device for the level trackers. -/
def fmin (s : Nat) (ls : List Nat) : Nat := ls.foldl min s

theorem fmin_append (s : Nat) (ls : List Nat) (x : Nat) :
    fmin s (ls ++ [x]) = min (fmin s ls) x := by
  simp [fmin, List.foldl_append]

theorem fmin_le_init (s : Nat) (ls : List Nat) : fmin s ls ≤ s := by
  induction ls generalizing s with
  | nil => exact le_refl s
  | cons a t ih => exact le_trans (ih (min s a)) (min_le_left s a)

theorem fmin_le_mem (s : Nat) (ls : List Nat) (x : Nat) (hx : x ∈ ls) : fmin s ls ≤ x := by
  induction ls generalizing s with
  | nil => cases hx
  | cons a t ih =>
    rcases List.mem_cons.mp hx with h | h
    · subst h
      exact le_trans (fmin_le_init (min s x) t) (min_le_right s x)
    · exact ih (min s a) h

theorem fmin_mem_or (s : Nat) (ls : List Nat) : fmin s ls = s ∨ fmin s ls ∈ ls := by
  induction ls generalizing s with
  | nil => exact Or.inl rfl
  | cons a t ih =>
    have hstep : fmin s (a :: t) = fmin (min s a) t := rfl
    rcases ih (min s a) with h | h
    · rcases le_total s a with hsa | has
      · left
        rw [hstep, h, min_eq_left hsa]
      · right
        rw [hstep, h, min_eq_right has]
        exact List.mem_cons_self a t
    · right
      rw [hstep]
      exact List.mem_cons_of_mem a h

/-- The fold in readmeOutline computes the minimum level together with the
minimum of the levels different from it (each defaulting to 127). -/
theorem outlineFold_eq (ls : List Nat) :
    outlineFold ls =
      (fmin maxInt8 ls, fmin maxInt8 (ls.filter (fun y => y ≠ fmin maxInt8 ls))) := by
  induction ls using List.reverseRecOn with
  | nil => rfl
  | append_singleton ls x ih =>
    have hfold : outlineFold (ls ++ [x]) = outlineStep (outlineFold ls) x := by
      simp [outlineFold, List.foldl_append]
    have hmin : fmin maxInt8 (ls ++ [x]) = min (fmin maxInt8 ls) x := fmin_append _ _ _
    rw [hfold, ih, hmin]
    unfold outlineStep
    dsimp only
    rcases lt_trichotomy x (fmin maxInt8 ls) with hx | hx | hx
    · have hax : min (fmin maxInt8 ls) x = x := min_eq_right (le_of_lt hx)
      have hfl : (ls ++ [x]).filter (fun y => y ≠ x) = ls := by
        rw [List.filter_append]
        have h1 : ls.filter (fun y => y ≠ x) = ls := by
          apply List.filter_eq_self.mpr
          intro y hy
          have hay : fmin maxInt8 ls ≤ y := fmin_le_mem _ _ _ hy
          exact decide_eq_true (by omega)
        have h2 : [x].filter (fun y => y ≠ x) = [] := by simp
        rw [h1, h2, List.append_nil]
      rw [if_pos hx, hax, hfl]
    · have hax : min (fmin maxInt8 ls) x = fmin maxInt8 ls := min_eq_left (le_of_eq hx.symm)
      have hfl : (ls ++ [x]).filter (fun y => y ≠ fmin maxInt8 ls) =
          ls.filter (fun y => y ≠ fmin maxInt8 ls) := by
        rw [List.filter_append]
        have h2 : [x].filter (fun y => y ≠ fmin maxInt8 ls) = [] := by
          rw [hx]
          simp
        rw [h2, List.append_nil]
      rw [if_neg (by omega), if_neg (fun hc => hc.2 hx), hax, hfl]
    · have hax : min (fmin maxInt8 ls) x = fmin maxInt8 ls := min_eq_left (le_of_lt hx)
      have hfl : (ls ++ [x]).filter (fun y => y ≠ fmin maxInt8 ls) =
          ls.filter (fun y => y ≠ fmin maxInt8 ls) ++ [x] := by
        rw [List.filter_append]
        have h2 : [x].filter (fun y => y ≠ fmin maxInt8 ls) = [x] := by
          have hxne : x ≠ fmin maxInt8 ls := by omega
          simp [hxne]
        rw [h2]
      rw [if_neg (by omega), hax, hfl, fmin_append]
      rcases lt_or_le x (fmin maxInt8 (ls.filter (fun y => y ≠ fmin maxInt8 ls))) with hb | hb
      · rw [if_pos ⟨hb, by omega⟩, min_eq_right (le_of_lt hb)]
      · rw [if_neg (fun hc => absurd hc.1 (not_lt.mpr hb)), min_eq_left hb]

theorem length_le_one_of_all_eq {α : Type} {l : List α} (hn : l.Nodup) (a : α)
    (h : ∀ x ∈ l, x = a) : l.length ≤ 1 := by
  cases l with
  | nil => exact Nat.zero_le 1
  | cons x t =>
    have hx : x = a := h x (List.mem_cons_self x t)
    have hnotin : x ∉ t := (List.nodup_cons.mp hn).1
    have ht : t = [] := by
      apply List.eq_nil_iff_forall_not_mem.mpr
      intro y hy
      have hy2 : y = a := h y (List.mem_cons_of_mem x hy)
      exact hnotin (by rw [hx, ← hy2]; exact hy)
    rw [ht]
    exact le_refl 1

theorem two_le_length_of_two_mem {α : Type} [DecidableEq α] {l : List α} {x y : α}
    (hx : x ∈ l) (hy : y ∈ l) (hxy : x ≠ y) : 2 ≤ l.length := by
  have hy2 : y ∈ l.erase x := (List.mem_erase_of_ne (Ne.symm hxy)).mpr hy
  have h1 : 1 ≤ (l.erase x).length := List.length_pos_of_mem hy2
  have h2 : (l.erase x).length = l.length - 1 := List.length_erase_of_mem hx
  have h3 : 1 ≤ l.length := List.length_pos_of_mem hx
  omega

/-- A level that occurs is at most the second tracker exactly when fewer than
two distinct occurring levels are smaller than it. -/
theorem level_le_second_iff (ls : List Nat) (L : Nat) (hL : L ∈ ls)
    (hsmall : ∀ y ∈ ls, y ≤ 6) :
    (L ≤ fmin maxInt8 (ls.filter (fun y => y ≠ fmin maxInt8 ls)) ↔
      (ls.dedup.filter (fun y => y < L)).length ≤ 1) := by
  have hm8 : maxInt8 = 127 := rfl
  have haL : fmin maxInt8 ls ≤ L := fmin_le_mem _ _ _ hL
  have hL6 : L ≤ 6 := hsmall L hL
  have hab : fmin maxInt8 ls ≤ fmin maxInt8 (ls.filter (fun y => y ≠ fmin maxInt8 ls)) := by
    rcases fmin_mem_or maxInt8 (ls.filter (fun y => y ≠ fmin maxInt8 ls)) with h | h
    · rw [h]
      exact le_trans (fmin_le_init _ _) (le_refl _)
    · exact fmin_le_mem _ _ _ (List.mem_of_mem_filter h)
  constructor
  · intro hle
    apply length_le_one_of_all_eq (List.Nodup.filter _ ls.nodup_dedup) (fmin maxInt8 ls)
    intro y hy
    have hmem := List.mem_filter.mp hy
    have hyls : y ∈ ls := List.mem_dedup.mp hmem.1
    have hyL : y < L := of_decide_eq_true hmem.2
    by_contra hne
    have hyf : y ∈ ls.filter (fun z => z ≠ fmin maxInt8 ls) := by
      apply List.mem_filter.mpr
      exact ⟨hyls, decide_eq_true hne⟩
    have : fmin maxInt8 (ls.filter (fun z => z ≠ fmin maxInt8 ls)) ≤ y :=
      fmin_le_mem _ _ _ hyf
    omega
  · intro hcount
    by_contra hgt
    push_neg at hgt
    have hb6 : fmin maxInt8 (ls.filter (fun y => y ≠ fmin maxInt8 ls)) < L := hgt
    have hbmem : fmin maxInt8 (ls.filter (fun y => y ≠ fmin maxInt8 ls)) ∈
        ls.filter (fun y => y ≠ fmin maxInt8 ls) := by
      rcases fmin_mem_or maxInt8 (ls.filter (fun y => y ≠ fmin maxInt8 ls)) with h | h
      · rw [h] at hb6
        omega
      · exact h
    have hbls : fmin maxInt8 (ls.filter (fun y => y ≠ fmin maxInt8 ls)) ∈ ls :=
      List.mem_of_mem_filter hbmem
    have hbne : fmin maxInt8 (ls.filter (fun y => y ≠ fmin maxInt8 ls)) ≠ fmin maxInt8 ls :=
      of_decide_eq_true (List.mem_filter.mp hbmem).2
    have haD : fmin maxInt8 ls ∈ ls.dedup.filter (fun y => y < L) := by
      apply List.mem_filter.mpr
      refine ⟨List.mem_dedup.mpr ?_, decide_eq_true (by omega)⟩
      rcases fmin_mem_or maxInt8 ls with h | h
      · omega
      · exact h
    have hbD : fmin maxInt8 (ls.filter (fun y => y ≠ fmin maxInt8 ls)) ∈
        ls.dedup.filter (fun y => y < L) := by
      apply List.mem_filter.mpr
      exact ⟨List.mem_dedup.mpr hbls, decide_eq_true (by omega)⟩
    have := two_le_length_of_two_mem haD hbD (Ne.symm hbne)
    omega

/-- C4: the heading outline keeps exactly the headings whose level is among
the two numerically smallest heading levels occurring in the document (ties
included), in original document order: a heading is kept iff fewer than two
distinct occurring levels are strictly smaller than its own level. Markdown
heading levels are between 1 and 6. -/
theorem readmeOutline_two_smallest (hs : List Heading)
    (hlev : ∀ h ∈ hs, h.Level ≤ 6) :
    readmeOutline hs =
      hs.filter (fun h =>
        ((hs.map Heading.Level).dedup.filter (fun y => y < h.Level)).length ≤ 1) := by
  unfold readmeOutline
  have hfold : hs.foldl (fun st h => outlineStep st h.Level) (maxInt8, maxInt8) =
      outlineFold (hs.map Heading.Level) := by
    rw [outlineFold, List.foldl_map]
  rw [hfold, outlineFold_eq]
  dsimp only
  apply List.filter_congr
  intro h hmem
  have hL : h.Level ∈ hs.map Heading.Level := List.mem_map_of_mem _ hmem
  have hsm : ∀ y ∈ hs.map Heading.Level, y ≤ 6 := by
    intro y hy
    obtain ⟨h2, hh2, rfl⟩ := List.mem_map.mp hy
    exact hlev h2 hh2
  exact decide_eq_decide.mpr (level_le_second_iff (hs.map Heading.Level) h.Level hL hsm)

def exampleHeadings : List Heading :=
  [⟨1, "intro", "readme-intro"⟩, ⟨3, "a", "readme-a"⟩, ⟨3, "b", "readme-b"⟩,
   ⟨2, "usage", "readme-usage"⟩, ⟨4, "c", "readme-c"⟩]

/-- Witness for C4: for headings at levels 1,3,3,2,4 the outline keeps
exactly the level-1 and level-2 entries, in document order. -/
theorem readmeOutline_two_smallest_witness :
    readmeOutline exampleHeadings =
        exampleHeadings.filter (fun h =>
          ((exampleHeadings.map Heading.Level).dedup.filter (fun y => y < h.Level)).length ≤ 1)
      ∧ readmeOutline exampleHeadings =
          [⟨1, "intro", "readme-intro"⟩, ⟨2, "usage", "readme-usage"⟩] :=
  ⟨readmeOutline_two_smallest exampleHeadings (by decide), by decide⟩

/-! ## Archive fetcher: README filename matching -/

/-- Case folding of a character sequence. -/
def foldCase (s : List Char) : List Char := s.map Char.toLower

/-- Base name of a path: the segment after the last slash. -/
def baseName (s : List Char) : List Char :=
  s.foldl (fun acc c => if c = '/' then [] else acc ++ [c]) []

/-- Split a name at its last dot, returning the stem and the extension. -/
def splitLastDot : List Char → Option (List Char × List Char)
  | [] => none
  | c :: cs =>
    match splitLastDot cs with
    | some (pre, post) => some (c :: pre, post)
    | none => if c = '.' then some ([], cs) else none

/-- Modelled from the spec: the implementation of hasFilename is not among
the examined sources (only TestHasFilename is). The spec matching rule —
case-folded, the candidate matches the target exactly or as the target plus
a dot and a single extension — applied to the candidate base name, together
with the whole-path acceptance exercised by TestHasFilename. -/
def hasFilenameL (file expected : List Char) : Bool :=
  foldCase file == foldCase expected ||
  foldCase (baseName file) == foldCase expected ||
  (match splitLastDot (baseName file) with
   | some (stem, _) => foldCase stem == foldCase expected
   | none => false)

def hasFilename (file expected : String) : Bool :=
  hasFilenameL file.data expected.data

/-- The matching rule exactly as the claim states it, on the base name only. -/
def claimBaseMatches (file expected : String) : Bool :=
  foldCase (baseName file.data) == foldCase expected.data ||
  (match splitLastDot (baseName file.data) with
   | some (stem, _) => foldCase stem == foldCase expected.data
   | none => false)

theorem splitLastDot_eq_none_iff (l : List Char) :
    splitLastDot l = none ↔ ('.' : Char) ∉ l := by
  induction l with
  | nil => simp [splitLastDot]
  | cons c cs ih =>
    unfold splitLastDot
    rcases hcs : splitLastDot cs with _ | pq
    · by_cases hc : c = '.'
      · simp [hc]
      · simp [hc, ih.mp hcs, Ne.symm hc]
    · simp only []
      constructor
      · intro h
        cases h
      · intro h
        exfalso
        have : ('.' : Char) ∉ cs := fun hm => h (List.mem_cons_of_mem c hm)
        rw [← ih] at this
        rw [this] at hcs
        cases hcs

theorem splitLastDot_eq_some (l pre post : List Char)
    (h : splitLastDot l = some (pre, post)) :
    l = pre ++ '.' :: post ∧ ('.' : Char) ∉ post := by
  induction l generalizing pre with
  | nil => cases h
  | cons c cs ih =>
    unfold splitLastDot at h
    rcases hcs : splitLastDot cs with _ | pq
    · rw [hcs] at h
      by_cases hc : c = '.'
      · rw [if_pos hc] at h
        injection h with h2
        obtain ⟨h3, h4⟩ := Prod.mk.inj h2
        subst h3
        subst h4
        subst hc
        exact ⟨rfl, (splitLastDot_eq_none_iff cs).mp hcs⟩
      · rw [if_neg hc] at h
        cases h
    · rw [hcs] at h
      obtain ⟨p, q⟩ := pq
      injection h with h2
      obtain ⟨h3, h4⟩ := Prod.mk.inj h2
      subst h4
      obtain ⟨hl, hnd⟩ := ih p hcs
      rw [← h3]
      constructor
      · rw [hl]
        rfl
      · exact hnd

theorem splitLastDot_append (stem ext : List Char) (hext : ('.' : Char) ∉ ext) :
    splitLastDot (stem ++ '.' :: ext) = some (stem, ext) := by
  induction stem with
  | nil =>
    have hnone : splitLastDot ext = none := (splitLastDot_eq_none_iff ext).mpr hext
    rw [List.nil_append]
    unfold splitLastDot
    rw [hnone]
    rfl
  | cons c cs ih =>
    have : (c :: cs) ++ '.' :: ext = c :: (cs ++ '.' :: ext) := rfl
    rw [this]
    unfold splitLastDot
    rw [ih]

/-- C3 (amended): hasFilename accepts exactly when, case-folded, the whole
candidate path equals the target, or the candidate base name equals the
target, or the candidate base name is a stem that case-folds to the target
followed by a dot and a single (dot-free) extension. -/
theorem hasFilename_spec (file expected : String) :
    hasFilename file expected = true ↔
      (foldCase file.data = foldCase expected.data
       ∨ foldCase (baseName file.data) = foldCase expected.data
       ∨ ∃ stem ext, baseName file.data = stem ++ '.' :: ext ∧ ('.' : Char) ∉ ext ∧
           foldCase stem = foldCase expected.data) := by
  unfold hasFilename hasFilenameL
  constructor
  · intro h
    rcases Bool.or_eq_true_iff.mp h with h12 | h3
    · rcases Bool.or_eq_true_iff.mp h12 with h1 | h2
      · exact Or.inl (eq_of_beq h1)
      · exact Or.inr (Or.inl (eq_of_beq h2))
    · rcases hsplit : splitLastDot (baseName file.data) with _ | sp
      · rw [hsplit] at h3
        cases h3
      · rw [hsplit] at h3
        obtain ⟨stem, post⟩ := sp
        obtain ⟨hl, hnd⟩ := splitLastDot_eq_some _ _ _ hsplit
        exact Or.inr (Or.inr ⟨stem, post, hl, hnd, eq_of_beq h3⟩)
  · intro h
    rcases h with h1 | h2 | ⟨stem, ext, hbase, hnd, hfold⟩
    · apply Bool.or_eq_true_iff.mpr
      exact Or.inl (Bool.or_eq_true_iff.mpr (Or.inl (beq_of_eq h1)))
    · apply Bool.or_eq_true_iff.mpr
      exact Or.inl (Bool.or_eq_true_iff.mpr (Or.inr (beq_of_eq h2)))
    · apply Bool.or_eq_true_iff.mpr
      right
      rw [hbase, splitLastDot_append stem ext hnd]
      exact beq_of_eq hfold

/-- Witness for the amended C3: the three concrete examples from the claim. -/
theorem hasFilename_spec_witness :
    hasFilename "README.FOO" "README" = true
    ∧ hasFilename "FOO_README" "README" = false
    ∧ hasFilename "README.FOO.FOO" "README" = false :=
  ⟨(hasFilename_spec "README.FOO" "README").mpr
      (Or.inr (Or.inr ⟨"README".data, "FOO".data, by decide, by decide, by decide⟩)),
    by decide, by decide⟩

/-- C3 counterexample: on the TestHasFilename case where the target is the
whole path, hasFilename accepts although the base-name-only rule stated in
the claim rejects. -/
theorem hasFilename_counterexample :
    hasFilename "github.com/my/module@v1.0.0/LICENSE" "github.com/my/module@v1.0.0/LICENSE" =
        true
    ∧ claimBaseMatches "github.com/my/module@v1.0.0/LICENSE"
        "github.com/my/module@v1.0.0/LICENSE" = false := by
  decide

/-! ## Build-constraint matcher: matchingFiles -/

/-- A file from the module archive: its path and the conjunction of tags on
a build-constraint comment line, if it has one. -/
structure ZipFile where
  name : String
  buildTags : Option (List String)
deriving DecidableEq, Repr

def knownGOOS : List String := ["linux", "darwin", "windows", "js"]

def knownGOARCH : List String := ["386", "amd64", "arm", "arm64", "wasm"]

/-- A build tag matches the target platform when it names its GOOS or its
GOARCH. -/
def tagMatches (goos goarch tag : String) : Bool := tag == goos || tag == goarch

/-- Does the name end in the .go extension. -/
def endsWithGo (s : List Char) : Bool :=
  match s.reverse with
  | o :: g :: d :: _ => (o == 'o') && (g == 'g') && (d == '.')
  | _ => false

/-- Split a name at underscores. -/
def splitUnderscore : List Char → List (List Char)
  | [] => [[]]
  | c :: cs =>
    let r := splitUnderscore cs
    if c = '_' then [] :: r
    else
      match r with
      | [] => [[c]]
      | h :: t => (c :: h) :: t

def knownGOOSData : List (List Char) := knownGOOS.map String.data

def knownGOARCHData : List (List Char) := knownGOARCH.map String.data

/-- Modelled from the spec: the filename-suffix conventions of the build
system. A name constrains the platform through a trailing _goos, _goarch or
_goos_goarch component (suffix auto-tagging requires an underscore in the
name); only .go files participate in a build. -/
def fileNameOk (goos goarch : String) (base : List Char) : Bool :=
  if !(endsWithGo base) then false
  else
    let stem := (base.reverse.drop 3).reverse
    if !(stem.elem '_') then true
    else
      match (splitUnderscore stem).reverse with
      | arch :: os :: _ =>
        if knownGOOSData.contains os && knownGOARCHData.contains arch then
          os == goos.data && arch == goarch.data
        else if knownGOOSData.contains arch then arch == goos.data
        else if knownGOARCHData.contains arch then arch == goarch.data
        else true
      | [x] =>
        if knownGOOSData.contains x then x == goos.data
        else if knownGOARCHData.contains x then x == goarch.data
        else true
      | [] => true

def fileMatches (goos goarch : String) (f : ZipFile) : Bool :=
  fileNameOk goos goarch (baseName f.name.data) &&
  (match f.buildTags with
   | none => true
   | some tags => tags.all (tagMatches goos goarch))

/-- Modelled from the spec: matchingFiles is not among the examined sources
(only TestMatchingFiles is). It filters the archive file list down to the
files the build system would include for the target platform, honoring the
build-constraint directives and the filename-suffix conventions. -/
def matchingFiles (goos goarch : String) (files : List ZipFile) : List ZipFile :=
  files.filter (fileMatches goos goarch)

def plainFile : ZipFile := { name := "plain/plain.go", buildTags := none }

def jsFile : ZipFile := { name := "js/js.go", buildTags := some ["js", "wasm"] }

def readmeFile : ZipFile := { name := "README.md", buildTags := none }

def licenseFile : ZipFile := { name := "LICENSE.md", buildTags := none }

def testArchive : List ZipFile := [readmeFile, licenseFile, plainFile, jsFile]

/-- C5: matchingFiles is deterministic (identical GOOS, GOARCH and file-set
inputs give identical outputs) and platform-exact: over every valid
platform, the file guarded by a js,wasm build constraint is included iff the
target is GOOS=js, GOARCH=wasm, while the unconstrained file is always
included. -/
theorem matchingFiles_platform_exact :
    (∀ g1 a1 f1 g2 a2 f2, g1 = g2 → a1 = a2 → f1 = f2 →
        matchingFiles g1 a1 f1 = matchingFiles g2 a2 f2)
    ∧ (∀ goos ∈ knownGOOS, ∀ goarch ∈ knownGOARCH,
        (jsFile ∈ matchingFiles goos goarch testArchive ↔ goos = "js" ∧ goarch = "wasm")
        ∧ plainFile ∈ matchingFiles goos goarch testArchive) := by
  constructor
  · intro g1 a1 f1 g2 a2 f2 hg ha hf
    rw [hg, ha, hf]
  · decide

/-- Witness for C5: included on js/wasm, excluded on linux/amd64, and the
unconstrained file is included on linux/amd64. -/
theorem matchingFiles_platform_exact_witness :
    jsFile ∈ matchingFiles "js" "wasm" testArchive
    ∧ plainFile ∈ matchingFiles "linux" "amd64" testArchive
    ∧ jsFile ∉ matchingFiles "linux" "amd64" testArchive :=
  ⟨((matchingFiles_platform_exact.2 "js" (by decide) "wasm" (by decide)).1).mpr ⟨rfl, rfl⟩,
    (matchingFiles_platform_exact.2 "linux" (by decide) "amd64" (by decide)).2,
    fun hmem =>
      absurd (((matchingFiles_platform_exact.2 "linux" (by decide) "amd64"
        (by decide)).1).mp hmem).1 (by decide)⟩

/-! ## Fetch pipeline and persistence -/

structure ModFile where
  path : String
  size : Nat
deriving DecidableEq, Repr

structure ModPkg where
  path : String
  files : List ModFile
deriving DecidableEq, Repr

structure ModuleTree where
  modulePath : String
  version : String
  pkgs : List ModPkg
deriving DecidableEq, Repr

/-- A package is oversized when one of its source files exceeds the per-file
byte ceiling. -/
def pkgOversized (limit : Nat) (p : ModPkg) : Bool :=
  p.files.any (fun f => limit < f.size)

inductive FetchErr where
  | notFound
  | badModule
  | deadlineExceeded
deriving DecidableEq, Repr

/-- Modelled from the spec: FetchAndInsertVersion is not among the examined
sources (only its tests are). Fetching a module skips every package that
contains a file over the byte ceiling, marks the module incomplete when that
happens, and stores the remaining packages; a skipped package is not fatal
to the module fetch. -/
def fetchAndInsertVersion (limit : Nat) (m : ModuleTree) :
    Except FetchErr (Bool × List ModPkg) :=
  Except.ok (m.pkgs.any (pkgOversized limit), m.pkgs.filter (fun p => !(pkgOversized limit p)))

/-- Package lookup among the stored packages; none is the NotFound outcome. -/
def getPackage (stored : List ModPkg) (path : String) : Option ModPkg :=
  stored.find? (fun p => p.path == path)

theorem find_by_path (l : List ModPkg) (q : ModPkg)
    (hn : (l.map ModPkg.path).Nodup) (hq : q ∈ l) :
    l.find? (fun p => p.path == q.path) = some q := by
  induction l with
  | nil => cases hq
  | cons a t ih =>
    rcases hpa : a.path == q.path with _ | _
    · simp only [List.find?, hpa]
      rcases List.mem_cons.mp hq with h | h
      · rw [h] at hpa
        simp at hpa
      · exact ih (List.nodup_cons.mp hn).2 h
    · simp only [List.find?, hpa]
      rcases List.mem_cons.mp hq with h | h
      · exact congrArg some h.symm
      · exfalso
        have hpaths : a.path = q.path := eq_of_beq hpa
        have hqt : q.path ∈ t.map ModPkg.path := List.mem_map_of_mem _ h
        have hna : a.path ∉ t.map ModPkg.path := (List.nodup_cons.mp hn).1
        rw [hpaths] at hna
        exact hna hqt

/-- C8: for every module containing an oversized package, the fetch succeeds
while reporting incomplete packages; the oversized package is then absent
from storage (NotFound) and every intact package of the module remains
retrievable. -/
theorem fetch_skips_incomplete (limit : Nat) (m : ModuleTree) (p : ModPkg)
    (hn : (m.pkgs.map ModPkg.path).Nodup)
    (hp : p ∈ m.pkgs) (hover : pkgOversized limit p = true) :
    ∃ stored, fetchAndInsertVersion limit m = Except.ok (true, stored)
      ∧ getPackage stored p.path = none
      ∧ ∀ q ∈ m.pkgs, pkgOversized limit q = false → getPackage stored q.path = some q := by
  refine ⟨m.pkgs.filter (fun r => !(pkgOversized limit r)), ?_, ?_, ?_⟩
  · unfold fetchAndInsertVersion
    have hany : m.pkgs.any (pkgOversized limit) = true := List.any_eq_true.mpr ⟨p, hp, hover⟩
    rw [hany]
  · apply List.find?_eq_none.mpr
    intro x hx hbeq
    have hxf := List.mem_filter.mp hx
    have hxp : x.path = p.path := eq_of_beq hbeq
    have hxm : x ∈ m.pkgs := List.mem_of_mem_filter hx
    have hxep : x = p := List.inj_on_of_nodup_map hn hxm hp hxp
    rw [hxep, hover] at hxf
    cases hxf.2
  · intro q hq hqo
    apply find_by_path
    · exact List.Nodup.sublist (List.Sublist.map _ (List.filter_sublist _)) hn
    · exact List.mem_filter.mpr ⟨hq, by rw [hqo]; rfl⟩

def fooPkg : ModPkg := { path := "github.com/my/module/foo", files := [⟨"foo/foo.go", 100⟩] }

def barPkg : ModPkg :=
  { path := "github.com/my/module/bar", files := [⟨"bar/bar.go", 40000000⟩] }

def badModuleTree : ModuleTree :=
  { modulePath := "github.com/my/module", version := "v1.0.0", pkgs := [fooPkg, barPkg] }

/-- Witness for C8: a module with an oversized bar package and an intact foo
package. -/
theorem fetch_skips_incomplete_witness :
    ∃ stored, fetchAndInsertVersion 30000000 badModuleTree = Except.ok (true, stored)
      ∧ getPackage stored barPkg.path = none
      ∧ ∀ q ∈ badModuleTree.pkgs, pkgOversized 30000000 q = false →
          getPackage stored q.path = some q :=
  fetch_skips_incomplete 30000000 badModuleTree barPkg (by decide) (by decide) (by decide)

/-- A stored module version record. -/
structure DBEntry where
  modulePath : String
  version : String
  pkgs : List ModPkg
  licenses : List String
deriving DecidableEq, Repr

/-- Modelled from the spec: the persistence adapter's store operation.
Writing a record under a (module path, version) key fully overwrites any
prior record stored under the same key. -/
def dbInsert (db : List DBEntry) (e : DBEntry) : List DBEntry :=
  e :: db.filter (fun o => !(o.modulePath == e.modulePath && o.version == e.version))

def dbLookup (db : List DBEntry) (modPath ver : String) : Option DBEntry :=
  db.find? (fun o => o.modulePath == modPath && o.version == ver)

def dbGetPackage (db : List DBEntry) (modPath ver pkgPath : String) : Option ModPkg :=
  match dbLookup db modPath ver with
  | none => none
  | some e => e.pkgs.find? (fun p => p.path == pkgPath)

/-- C9: re-fetching the same (module path, version) with different contents
fully replaces the stored packages and licenses for that key: the stored
record equals exactly the one produced by the second fetch, and every
package present only in the first fetch yields NotFound. -/
theorem refetch_overwrites (db : List DBEntry) (mp v : String)
    (pkgs1 pkgs2 : List ModPkg) (lics1 lics2 : List String) :
    dbLookup (dbInsert (dbInsert db ⟨mp, v, pkgs1, lics1⟩) ⟨mp, v, pkgs2, lics2⟩) mp v =
        some ⟨mp, v, pkgs2, lics2⟩
    ∧ ∀ p ∈ pkgs1, p.path ∉ pkgs2.map ModPkg.path →
        dbGetPackage (dbInsert (dbInsert db ⟨mp, v, pkgs1, lics1⟩) ⟨mp, v, pkgs2, lics2⟩)
          mp v p.path = none := by
  have hhead : dbLookup (dbInsert (dbInsert db ⟨mp, v, pkgs1, lics1⟩) ⟨mp, v, pkgs2, lics2⟩)
      mp v = some ⟨mp, v, pkgs2, lics2⟩ := by
    unfold dbLookup dbInsert
    simp [List.find?]
  refine ⟨hhead, ?_⟩
  intro p hp hnot
  unfold dbGetPackage
  rw [hhead]
  apply List.find?_eq_none.mpr
  intro q hq hbeq
  exact hnot (eq_of_beq hbeq ▸ List.mem_map_of_mem ModPkg.path hq)

/-- Witness for C9 at a concrete pair of fetches. -/
theorem refetch_overwrites_witness :
    dbLookup (dbInsert (dbInsert []
        ⟨"github.com/my/module", "v1.0.0", [⟨"github.com/my/module/foo", []⟩], ["MIT"]⟩)
        ⟨"github.com/my/module", "v1.0.0", [⟨"github.com/my/module/bar", []⟩], ["MIT"]⟩)
        "github.com/my/module" "v1.0.0" =
      some ⟨"github.com/my/module", "v1.0.0", [⟨"github.com/my/module/bar", []⟩], ["MIT"]⟩
    ∧ dbGetPackage (dbInsert (dbInsert []
        ⟨"github.com/my/module", "v1.0.0", [⟨"github.com/my/module/foo", []⟩], ["MIT"]⟩)
        ⟨"github.com/my/module", "v1.0.0", [⟨"github.com/my/module/bar", []⟩], ["MIT"]⟩)
        "github.com/my/module" "v1.0.0" "github.com/my/module/foo" = none :=
  ⟨(refetch_overwrites [] "github.com/my/module" "v1.0.0"
      [⟨"github.com/my/module/foo", []⟩] [⟨"github.com/my/module/bar", []⟩]
      ["MIT"] ["MIT"]).1,
    (refetch_overwrites [] "github.com/my/module" "v1.0.0"
      [⟨"github.com/my/module/foo", []⟩] [⟨"github.com/my/module/bar", []⟩]
      ["MIT"] ["MIT"]).2 ⟨"github.com/my/module/foo", []⟩ (by decide) (by decide)⟩

end Pkgsite
